import Mathlib

/-!
Verification of the `iceberg` population-size estimators against their
natural-language specification.

The development shallowly embeds `iceberg/estimate.py`:

* Python float arithmetic is modelled by exact arithmetic (`ℚ` for the
  Cuthbert search path, `ℝ` for the BBC path, whose iteration uses the
  transcendental `exp`).
* `_calculate_error` computes `exp(Σ (log(e − s) − log e) + log e)`; over the
  domain where the logarithms are defined this equals
  `e · Π (e − s) / e`, which is the form embedded here (the spec states the
  function in exactly this product form).
* `np.random.*` draws are modelled by an oracle: a stream of index lists,
  one list per call to `np.random.choice`; the selection a call returns is
  the pool entries at the oracle's indices.  The error behaviour of
  `np.random.choice` is embedded explicitly: a non-1-dimensional pool array
  is rejected, as is a selection size exceeding the pool
  (`replace=False`), a negative size, and a positive size from an empty
  pool.  `np.array(samples, dtype=object)` yields a 2-dimensional array
  exactly when `samples` is non-empty and all its member lists have equal
  length.
* Python exceptions are modelled by an explicit error result; the BBC
  `while` loop, which has no iteration cap, is modelled by its iteration
  sequence together with an explicit `diverges` outcome for the case in
  which no iteration ever meets the convergence test.
-/

/-- The product `Π (estimate − s) / estimate` over the sample sizes; the
per-sample survival factors of `_calculate_error` in `estimate.py`. -/
def ratioProd (estimate : ℚ) (sampleSizes : List ℚ) : ℚ :=
  (sampleSizes.map (fun s => (estimate - s) / estimate)).prod

/-- `_calculate_error(estimate, num_entities, sample_sizes)`:
`estimate · Π (estimate − s)/estimate − (estimate − num_entities)`
(the source computes the first summand in log space; the two agree wherever
the logs are defined). -/
def calcError (estimate numEntities : ℚ) (sampleSizes : List ℚ) : ℚ :=
  estimate * ratioProd estimate sampleSizes - (estimate - numEntities)

/-- `int(np.ceil((lower_bound + upper_bound) / 2))`. -/
def bisectMid (lower upper : ℤ) : ℤ :=
  ⌈((lower : ℚ) + (upper : ℚ)) / 2⌉

/-- Fuel-indexed unfolding of `_recurse_to_best_estimate`; the fuel only
serves to make the recursion structural, `recurseToBestEstimate` below
supplies enough fuel for the fuel never to run out and
`recurseToBestEstimate_eq` recovers the source's recursion verbatim. -/
def recurseAux (numEntities : ℚ) (sampleSizes : List ℚ) :
    ℕ → ℤ → ℤ → ℤ
  | 0, _, upper => upper
  | fuel + 1, lower, upper =>
    if upper - lower ≤ 1 then upper
    else
      if 0 < calcError (bisectMid lower upper : ℤ) numEntities sampleSizes then
        recurseAux numEntities sampleSizes fuel (bisectMid lower upper) upper
      else
        recurseAux numEntities sampleSizes fuel lower (bisectMid lower upper)

/-- `_recurse_to_best_estimate(lower_bound, upper_bound, num_entities,
sample_sizes)`. -/
def recurseToBestEstimate (lower upper : ℤ) (numEntities : ℚ)
    (sampleSizes : List ℚ) : ℤ :=
  recurseAux numEntities sampleSizes (upper - lower).toNat lower upper

/-- `_find_best_estimate(num_entities, max_pop_size, sample_sizes)`. -/
def findBestEstimate (numEntities maxPopSize : ℤ) (sampleSizes : List ℚ) : ℤ :=
  if 0 < calcError (maxPopSize : ℚ) (numEntities : ℚ) sampleSizes then
    maxPopSize
  else if calcError (numEntities : ℚ) (numEntities : ℚ) sampleSizes ≤ 0 then
    numEntities
  else
    recurseToBestEstimate numEntities maxPopSize (numEntities : ℚ) sampleSizes

/-- `max_pop_size = int(np.ceil(len(entities) / min_survival))` in
`cuthbert`. -/
def maxPopSize (numEntities : ℕ) (minSurvival : ℚ) : ℤ :=
  ⌈(numEntities : ℚ) / minSurvival⌉

/-- `entity_counts`: how many times entity `a` occurs across all samples
(`Counter` of the flattened sample list). -/
def entityCount {α : Type} [DecidableEq α] (samples : List (List α)) (a : α) :
    ℕ :=
  samples.flatten.count a

/-- The set of observed entities (`set(entity for sample ... )`, also the
key set of `entity_counts`). -/
def observedEntities {α : Type} [DecidableEq α] (samples : List (List α)) :
    Finset α :=
  samples.flatten.toFinset

/-- `len(entities)` / `len(entity_counts)`: the number of distinct observed
entities. -/
def numObserved {α : Type} [DecidableEq α] (samples : List (List α)) : ℕ :=
  (observedEntities samples).card

/-- `frequency_counts[f]`: the number of distinct entities observed exactly
`f` times (`0` when `f` is absent from the counter). -/
def freqSpectrum {α : Type} [DecidableEq α] (samples : List (List α)) (f : ℕ) :
    ℕ :=
  ((observedEntities samples).filter (fun a => entityCount samples a = f)).card

/-- The set of frequencies that occur (`frequency_counts.keys()`). -/
def freqSupport {α : Type} [DecidableEq α] (samples : List (List α)) :
    Finset ℕ :=
  (observedEntities samples).image (entityCount samples)

/-- `biased_est = sum(frequency_counts[f] / np.exp(f) for f in
frequency_counts)`. -/
noncomputable def biasedEst {α : Type} [DecidableEq α]
    (samples : List (List α)) : ℝ :=
  ∑ f ∈ freqSupport samples, (freqSpectrum samples f : ℝ) / Real.exp (f : ℝ)

/-- One pass of the `while` loop body:
`corrected = biased + prev * np.exp(-1 * frequency_counts[1] / prev)`. -/
noncomputable def bbcStep (B c x : ℝ) : ℝ :=
  B + x * Real.exp (-c / x)

/-- The iterates of the fixed-point loop; `bbcIter B c 0 = B` is the initial
value `corrected_est = biased_est`. -/
noncomputable def bbcIter (B c : ℝ) : ℕ → ℝ
  | 0 => B
  | k + 1 => bbcStep B c (bbcIter B c k)

/-- The convergence test after the `k`-th loop pass:
`delta = abs(corrected_est - previous_est) ≤ max_delta`. -/
def bbcStops (B c tol : ℝ) (k : ℕ) : Prop :=
  |bbcIter B c (k + 1) - bbcIter B c k| ≤ tol

/-- The loop performs at most `N` passes before its convergence test
succeeds. -/
def bbcTerminatesWithin (B c tol : ℝ) (N : ℕ) : Prop :=
  ∃ k < N, bbcStops B c tol k

noncomputable instance bbcStopsDecPred (B c tol : ℝ) :
    DecidablePred (bbcStops B c tol) :=
  fun _ => Classical.propDecidable _

noncomputable instance bbcStopsDecEx (B c tol : ℝ) :
    Decidable (∃ k, bbcStops B c tol k) :=
  Classical.propDecidable _

/-- The value held by `corrected_est` when the `while` loop exits: the
iterate one past the first index whose convergence test succeeds, or `none`
if the test never succeeds (the source then loops forever). -/
noncomputable def bbcFinal (B c tol : ℝ) : Option ℝ :=
  if h : ∃ k, bbcStops B c tol k then some (bbcIter B c (Nat.find h + 1))
  else none

/-- The observable outcomes of `bbc`: the `ValueError` raised when no
entity is observed exactly once, non-termination of the `while` loop, or a
returned estimate. -/
inductive BBCOutcome where
  | noSingletons : BBCOutcome
  | diverges : BBCOutcome
  | ok : ℤ → BBCOutcome

/-- `bbc(samples, max_delta)` from `estimate.py`: raise if the spectrum has
no entry for frequency 1; otherwise run the fixed-point loop and return
`len(entity_counts) + int(np.ceil(corrected_est))`. -/
noncomputable def bbc {α : Type} [DecidableEq α] (samples : List (List α))
    (maxDelta : ℝ) : BBCOutcome :=
  if freqSpectrum samples 1 = 0 then BBCOutcome.noSingletons
  else
    match bbcFinal (biasedEst samples) ((freqSpectrum samples 1 : ℕ) : ℝ)
        maxDelta with
    | some corrected =>
        BBCOutcome.ok ((numObserved samples : ℤ) + ⌈corrected⌉)
    | none => BBCOutcome.diverges

/-- The `uncorrected` estimate computed by `cuthbert`:
`_find_best_estimate(len(entities), int(np.ceil(len(entities)/min_survival)),
[len(sample) for sample in samples])`. -/
def cuthbertUncorrected {α : Type} [DecidableEq α] (samples : List (List α))
    (minSurvival : ℚ) : ℤ :=
  findBestEstimate (numObserved samples)
    (maxPopSize (numObserved samples) minSurvival)
    (samples.map fun s => ((s.length : ℕ) : ℚ))

/-- One entity observed once. -/
def singleSample : List (List ℕ) := [[0]]

/-- One singleton plus five entities observed twice: the frequency spectrum
is `{1: 1, 2: 5}`. -/
def fiveDoubleSample : List (List ℕ) := [[0, 1, 2, 3, 4, 5], [1, 2, 3, 4, 5]]

/-- The distinguishable `ValueError`s that `np.random.choice` raises. -/
inductive NpError where
  | notOneDimensional : NpError
  | negativeDimensions : NpError
  | emptyPool : NpError
  | tooLargeSample : NpError
deriving DecidableEq

/-- Normal return or a raised error. -/
inductive PyResult (β : Type) where
  | ok : β → PyResult β
  | err : NpError → PyResult β
deriving DecidableEq

/-- `np.array(samples, dtype=object)` produces a 2-dimensional array (which
`np.random.choice` rejects) exactly when the list of samples is non-empty
and all samples have the same length; a ragged list yields a 1-dimensional
object array. -/
def samplesIs2D {α : Type} : List (List α) → Bool
  | [] => false
  | s :: rest => rest.all (fun t => t.length == s.length)

/-- `np.random.choice(pool, size, replace=False)`: reject a 2-dimensional
pool, a negative size, a positive size from an empty pool, and a size
exceeding the pool; otherwise return the pool entries at the oracle's
selected positions. -/
def npChoice {β : Type} (pool : List β) (size : ℤ) (is2d : Bool)
    (sel : List ℕ) : PyResult (List β) :=
  if is2d then PyResult.err NpError.notOneDimensional
  else if size < 0 then PyResult.err NpError.negativeDimensions
  else if pool.length = 0 ∧ size ≠ 0 then PyResult.err NpError.emptyPool
  else if (pool.length : ℤ) < size then PyResult.err NpError.tooLargeSample
  else PyResult.ok ((sel.take size.toNat).filterMap fun i => pool.get? i)

/-- `retained_samples = [sample for sample in samples if sample not in
validation_samples]`: filtering is by value equality of sample lists. -/
def retainedSamples {α : Type} [DecidableEq α]
    (samples validation : List (List α)) : List (List α) :=
  samples.filter (fun s => decide (s ∉ validation))

/-- `retained_entities`: the set of entities appearing in some retained
sample. -/
def retainedEntities {α : Type} [DecidableEq α]
    (samples validation : List (List α)) : Finset α :=
  (retainedSamples samples validation).flatten.toFinset

/-- `true_new = num_observed - len(retained_entities)` as computed by a
trial of `_cross_validate_estimate` (with `num_observed = len(entities)`
as passed by `cuthbert`). -/
def trueNewCount {α : Type} [DecidableEq α]
    (samples validation : List (List α)) : ℤ :=
  (numObserved samples : ℤ) - (retainedEntities samples validation).card

/-- `simulated_population = list(entities) + simulated_entities`: the
distinct observed entities followed by `u − len(entities)` fresh
placeholder entities (`range` of a negative number is empty). -/
def simulatedPopulation {α : Type} [DecidableEq α]
    (samples : List (List α)) (u : ℤ) : List (α ⊕ ℕ) :=
  samples.flatten.dedup.map Sum.inl ++
    (List.range (u - numObserved samples).toNat).map Sum.inr

/-- The per-held-out-sample draws from the simulated population, flattened
(the source unions them into a set afterwards); `i` indexes the oracle
call. -/
def simDraws {α : Type} [DecidableEq α] (simPop : List (α ⊕ ℕ))
    (draw : ℕ → List ℕ) : List (List α) → ℕ → PyResult (List (α ⊕ ℕ))
  | [], _ => PyResult.ok []
  | s :: rest, i =>
    match npChoice simPop (s.length : ℤ) false (draw i) with
    | PyResult.err e => PyResult.err e
    | PyResult.ok picked =>
      match simDraws simPop draw rest (i + 1) with
      | PyResult.err e => PyResult.err e
      | PyResult.ok more => PyResult.ok (picked ++ more)

/-- `_cross_validate_estimate(simulated_population, samples, num_observed,
cv_ppn)` under the draw oracle. -/
def crossValidateEstimate {α : Type} [DecidableEq α]
    (simPop : List (α ⊕ ℕ)) (samples : List (List α)) (numObs : ℕ)
    (cvPpn : ℚ) (draw : ℕ → List ℕ) : PyResult ℤ :=
  match npChoice samples (⌈cvPpn * (samples.length : ℚ)⌉)
      (samplesIs2D samples) (draw 0) with
  | PyResult.err e => PyResult.err e
  | PyResult.ok validation =>
    match simDraws simPop draw validation 1 with
    | PyResult.err e => PyResult.err e
    | PyResult.ok simFlat =>
      PyResult.ok ((numObs : ℤ) +
        ⌈((simPop.length : ℚ) - (numObs : ℚ)) *
          (1 + ((max ((numObs : ℤ) -
              (retainedEntities samples validation).card -
              (simFlat.toFinset \
                (retainedEntities samples validation).image Sum.inl).card)
              0 : ℤ) : ℚ) /
            ((max ((simFlat.toFinset \
                (retainedEntities samples validation).image Sum.inl).card)
              1 : ℕ) : ℚ))⌉)

/-- The `for _ in range(cv)` loop of `cuthbert`, appending one
cross-validated estimate per trial; the first argument of the pair is the
trial index, the second the number of remaining trials. -/
def runTrials {α : Type} [DecidableEq α] (simPop : List (α ⊕ ℕ))
    (samples : List (List α)) (numObs : ℕ) (cvPpn : ℚ)
    (rng : ℕ → ℕ → List ℕ) : ℕ → ℕ → PyResult (List ℤ)
  | _, 0 => PyResult.ok []
  | t, k + 1 =>
    match crossValidateEstimate simPop samples numObs cvPpn (rng t) with
    | PyResult.err e => PyResult.err e
    | PyResult.ok est =>
      match runTrials simPop samples numObs cvPpn rng (t + 1) k with
      | PyResult.err e => PyResult.err e
      | PyResult.ok rest => PyResult.ok (est :: rest)

/-- The value `cuthbert` returns: `{'uncorrected': int, 'corrected':
[int]}`. -/
structure CuthbertResult where
  uncorrected : ℤ
  corrected : List ℤ
deriving DecidableEq

/-- `cuthbert(samples, min_survival, cv, cv_ppn)` from `estimate.py` under
the randomness oracle (`cv=None` skips cross-validation; `range(cv)` of a
negative `cv` is empty). -/
def cuthbert {α : Type} [DecidableEq α] (samples : List (List α))
    (minSurvival : ℚ) (cv : Option ℤ) (cvPpn : ℚ)
    (rng : ℕ → ℕ → List ℕ) : PyResult CuthbertResult :=
  match cv with
  | none => PyResult.ok ⟨cuthbertUncorrected samples minSurvival, []⟩
  | some c =>
    match runTrials
        (simulatedPopulation samples (cuthbertUncorrected samples minSurvival))
        samples (numObserved samples) cvPpn rng 0 c.toNat with
    | PyResult.err e => PyResult.err e
    | PyResult.ok corrected =>
      PyResult.ok ⟨cuthbertUncorrected samples minSurvival, corrected⟩

/-- Two equal-length samples: `np.array(samples, dtype=object)` is 2-D. -/
def pairSamples : List (List ℕ) := [[0, 1], [2, 3]]

/-! ## Theorems -/

theorem recurseAux_zero (numEntities : ℚ) (sampleSizes : List ℚ) (l u : ℤ) :
    recurseAux numEntities sampleSizes 0 l u = u := rfl

theorem recurseAux_succ (numEntities : ℚ) (sampleSizes : List ℚ)
    (fuel : ℕ) (l u : ℤ) :
    recurseAux numEntities sampleSizes (fuel + 1) l u =
      if u - l ≤ 1 then u
      else
        if 0 < calcError (bisectMid l u : ℤ) numEntities sampleSizes then
          recurseAux numEntities sampleSizes fuel (bisectMid l u) u
        else
          recurseAux numEntities sampleSizes fuel l (bisectMid l u) := rfl

theorem bisectMid_bounds {l u : ℤ} (h : l + 2 ≤ u) :
    l + 1 ≤ bisectMid l u ∧ bisectMid l u ≤ u - 1 := by
  have hc : ((l : ℚ) + 2) ≤ (u : ℚ) := by exact_mod_cast h
  constructor
  · have h1 : (((l + 1 : ℤ) : ℚ)) ≤ ((l : ℚ) + (u : ℚ)) / 2 := by
      push_cast; linarith
    have := Int.ceil_mono h1
    rw [Int.ceil_intCast] at this
    exact this
  · have h1 : ((l : ℚ) + (u : ℚ)) / 2 ≤ (((u - 1 : ℤ) : ℚ)) := by
      push_cast; linarith
    have := Int.ceil_mono h1
    rw [Int.ceil_intCast] at this
    exact this

theorem recurseAux_fuel_irrel (numEntities : ℚ) (sampleSizes : List ℚ) :
    ∀ f₁ f₂ (l u : ℤ), (u - l).toNat ≤ f₁ → (u - l).toNat ≤ f₂ →
      recurseAux numEntities sampleSizes f₁ l u =
        recurseAux numEntities sampleSizes f₂ l u := by
  intro f₁
  induction f₁ with
  | zero =>
    intro f₂ l u h1 h2
    have hgap : u - l ≤ 1 := by omega
    cases f₂ with
    | zero => rfl
    | succ k => rw [recurseAux_zero, recurseAux_succ, if_pos hgap]
  | succ k ih =>
    intro f₂ l u h1 h2
    cases f₂ with
    | zero =>
      have hgap : u - l ≤ 1 := by omega
      rw [recurseAux_zero, recurseAux_succ, if_pos hgap]
    | succ j =>
      by_cases hgap : u - l ≤ 1
      · rw [recurseAux_succ, recurseAux_succ, if_pos hgap, if_pos hgap]
      · have h2le : l + 2 ≤ u := by omega
        obtain ⟨hm1, hm2⟩ := bisectMid_bounds h2le
        have hk : (u - bisectMid l u).toNat ≤ k := by omega
        have hk2 : (bisectMid l u - l).toNat ≤ k := by omega
        have hj : (u - bisectMid l u).toNat ≤ j := by omega
        have hj2 : (bisectMid l u - l).toNat ≤ j := by omega
        rw [recurseAux_succ, recurseAux_succ, if_neg hgap, if_neg hgap]
        by_cases hmid :
            0 < calcError (bisectMid l u : ℤ) numEntities sampleSizes
        · rw [if_pos hmid, if_pos hmid, ih _ _ _ hk hj]
        · rw [if_neg hmid, if_neg hmid, ih _ _ _ hk2 hj2]

theorem recurseToBestEstimate_eq (lower upper : ℤ) (numEntities : ℚ)
    (sampleSizes : List ℚ) :
    recurseToBestEstimate lower upper numEntities sampleSizes =
      if upper - lower ≤ 1 then upper
      else
        if 0 < calcError (bisectMid lower upper : ℤ) numEntities sampleSizes
        then recurseToBestEstimate (bisectMid lower upper) upper numEntities
          sampleSizes
        else recurseToBestEstimate lower (bisectMid lower upper) numEntities
          sampleSizes := by
  by_cases hgap : upper - lower ≤ 1
  · rw [if_pos hgap]
    unfold recurseToBestEstimate
    cases hfn : (upper - lower).toNat with
    | zero => rfl
    | succ k => rw [recurseAux_succ, if_pos hgap]
  · rw [if_neg hgap]
    have h2le : lower + 2 ≤ upper := by omega
    obtain ⟨hm1, hm2⟩ := bisectMid_bounds h2le
    unfold recurseToBestEstimate
    obtain ⟨k, hk⟩ : ∃ k, (upper - lower).toNat = k + 1 :=
      ⟨(upper - lower).toNat - 1, by omega⟩
    rw [hk, recurseAux_succ, if_neg hgap]
    by_cases hmid :
        0 < calcError (bisectMid lower upper : ℤ) numEntities sampleSizes
    · simp only [if_pos hmid]
      apply recurseAux_fuel_irrel
      · omega
      · exact le_rfl
    · simp only [if_neg hmid]
      apply recurseAux_fuel_irrel
      · omega
      · exact le_rfl

theorem recurseAux_mem (numEntities : ℚ) (sampleSizes : List ℚ) :
    ∀ fuel (l u : ℤ), l ≤ u →
      l ≤ recurseAux numEntities sampleSizes fuel l u ∧
        recurseAux numEntities sampleSizes fuel l u ≤ u := by
  intro fuel
  induction fuel with
  | zero => intro l u h; rw [recurseAux_zero]; exact ⟨h, le_rfl⟩
  | succ k ih =>
    intro l u h
    rw [recurseAux_succ]
    by_cases hgap : u - l ≤ 1
    · rw [if_pos hgap]; exact ⟨h, le_rfl⟩
    · rw [if_neg hgap]
      have h2le : l + 2 ≤ u := by omega
      obtain ⟨hm1, hm2⟩ := bisectMid_bounds h2le
      by_cases hmid :
          0 < calcError (bisectMid l u : ℤ) numEntities sampleSizes
      · rw [if_pos hmid]
        obtain ⟨ha, hb⟩ := ih (bisectMid l u) u (by omega)
        exact ⟨by omega, hb⟩
      · rw [if_neg hmid]
        obtain ⟨ha, hb⟩ := ih l (bisectMid l u) (by omega)
        exact ⟨ha, by omega⟩

theorem recurseAux_spec (numEntities : ℚ) (sampleSizes : List ℚ) :
    ∀ fuel (l u : ℤ), (u - l).toNat ≤ fuel → l < u →
      0 < calcError (l : ℚ) numEntities sampleSizes →
      calcError (u : ℚ) numEntities sampleSizes ≤ 0 →
      l < recurseAux numEntities sampleSizes fuel l u ∧
        recurseAux numEntities sampleSizes fuel l u ≤ u ∧
        0 < calcError ((recurseAux numEntities sampleSizes fuel l u : ℤ) - 1 : ℤ)
          numEntities sampleSizes ∧
        calcError ((recurseAux numEntities sampleSizes fuel l u : ℤ) : ℚ)
          numEntities sampleSizes ≤ 0 := by
  intro fuel
  induction fuel with
  | zero => intro l u hf hlu _ _; omega
  | succ k ih =>
    intro l u hf hlu hl hu
    rw [recurseAux_succ]
    by_cases hgap : u - l ≤ 1
    · rw [if_pos hgap]
      have : u = l + 1 := by omega
      refine ⟨by omega, le_rfl, ?_, hu⟩
      rw [show u - 1 = l by omega]
      exact hl
    · rw [if_neg hgap]
      have h2le : l + 2 ≤ u := by omega
      obtain ⟨hm1, hm2⟩ := bisectMid_bounds h2le
      by_cases hmid :
          0 < calcError (bisectMid l u : ℤ) numEntities sampleSizes
      · rw [if_pos hmid]
        obtain ⟨ha, hb, hc, hd⟩ := ih (bisectMid l u) u (by omega) (by omega)
          hmid hu
        exact ⟨by omega, hb, hc, hd⟩
      · rw [if_neg hmid]
        obtain ⟨ha, hb, hc, hd⟩ := ih l (bisectMid l u) (by omega) (by omega)
          hl (le_of_not_lt hmid)
        exact ⟨ha, by omega, hc, hd⟩

theorem ratioProd_mem (sampleSizes : List ℚ) (t : ℚ) (ht : 0 < t)
    (hs : ∀ s ∈ sampleSizes, 0 ≤ s ∧ s ≤ t) :
    0 ≤ ratioProd t sampleSizes ∧ ratioProd t sampleSizes ≤ 1 := by
  induction sampleSizes with
  | nil => simp [ratioProd]
  | cons a l ih =>
    obtain ⟨ha0, hat⟩ := hs a (List.mem_cons_self a l)
    have hta : 0 ≤ t - a := by linarith
    have hfac0 : 0 ≤ (t - a) / t := by positivity
    have hfac1 : (t - a) / t ≤ 1 := by
      rw [div_le_one ht]; linarith
    obtain ⟨hp0, hp1⟩ := ih (fun s hsl => hs s (List.mem_cons_of_mem a hsl))
    have : ratioProd t (a :: l) = (t - a) / t * ratioProd t l := by
      simp [ratioProd]
    rw [this]
    constructor
    · positivity
    · calc (t - a) / t * ratioProd t l ≤ 1 * 1 :=
          mul_le_mul hfac1 hp1 hp0 zero_le_one
        _ = 1 := one_mul 1

theorem ratioProd_mono (sampleSizes : List ℚ) (y x : ℚ) (hy : 0 < y)
    (hyx : y ≤ x) (hs : ∀ s ∈ sampleSizes, 0 ≤ s ∧ s ≤ y) :
    ratioProd y sampleSizes ≤ ratioProd x sampleSizes := by
  have hx : 0 < x := lt_of_lt_of_le hy hyx
  induction sampleSizes with
  | nil => simp [ratioProd]
  | cons a l ih =>
    obtain ⟨ha0, hay⟩ := hs a (List.mem_cons_self a l)
    have hyfac : (y - a) / y ≤ (x - a) / x := by
      rw [div_le_div_iff hy hx]
      nlinarith
    have hya : 0 ≤ y - a := by linarith
    have hyfac0 : 0 ≤ (y - a) / y := by positivity
    obtain ⟨hpy0, _⟩ := ratioProd_mem l y hy
      (fun s hsl => hs s (List.mem_cons_of_mem a hsl))
    have hxfac0 : 0 ≤ (x - a) / x := by
      have : 0 ≤ x - a := by linarith
      positivity
    have hmono := ih (fun s hsl => hs s (List.mem_cons_of_mem a hsl))
    have hy' : ratioProd y (a :: l) = (y - a) / y * ratioProd y l := by
      simp [ratioProd]
    have hx' : ratioProd x (a :: l) = (x - a) / x * ratioProd x l := by
      simp [ratioProd]
    rw [hy', hx']
    exact mul_le_mul hyfac hmono hpy0 hxfac0

theorem mulRatio_diff (sampleSizes : List ℚ) (y x : ℚ) (hy : 0 < y)
    (hyx : y ≤ x) (hs : ∀ s ∈ sampleSizes, 0 ≤ s ∧ s ≤ y) :
    x * ratioProd x sampleSizes - y * ratioProd y sampleSizes ≤ x - y := by
  have hx : 0 < x := lt_of_lt_of_le hy hyx
  induction sampleSizes with
  | nil => simp [ratioProd]
  | cons a l ih =>
    obtain ⟨ha0, hay⟩ := hs a (List.mem_cons_self a l)
    have hrest : ∀ s ∈ l, 0 ≤ s ∧ s ≤ y :=
      fun s hsl => hs s (List.mem_cons_of_mem a hsl)
    have hmono := ratioProd_mono l y x hy hyx hrest
    have hy' : y * ratioProd y (a :: l) = (y - a) * ratioProd y l := by
      simp only [ratioProd, List.map_cons, List.prod_cons]
      field_simp
    have hx' : x * ratioProd x (a :: l) = (x - a) * ratioProd x l := by
      simp only [ratioProd, List.map_cons, List.prod_cons]
      field_simp
    rw [hy', hx']
    have hIH := ih hrest
    nlinarith [hmono, hIH]

theorem calcError_anti (numEntities : ℚ) (sampleSizes : List ℚ) (y x : ℚ)
    (hy : 0 < y) (hyx : y ≤ x) (hs : ∀ s ∈ sampleSizes, 0 ≤ s ∧ s ≤ y) :
    calcError x numEntities sampleSizes ≤ calcError y numEntities sampleSizes := by
  have := mulRatio_diff sampleSizes y x hy hyx hs
  simp only [calcError]
  linarith

theorem le_maxPopSize (n : ℕ) (r : ℚ) (h0 : 0 < r) (h1 : r ≤ 1) :
    (n : ℤ) ≤ maxPopSize n r := by
  have hdiv : ((n : ℚ)) ≤ (n : ℚ) / r := by
    rw [le_div_iff h0]
    exact mul_le_of_le_one_right (by positivity) h1
  have := Int.ceil_mono hdiv
  rw [Int.ceil_natCast] at this
  exact this

theorem maxPopSize_zero (r : ℚ) : maxPopSize 0 r = 0 := by
  simp [maxPopSize]

theorem c1_counterexample :
    ¬((0 < calcError
          ((findBestEstimate 1 (maxPopSize 1 (1/2)) [5, 5, 1] : ℚ) - 1)
          1 [5, 5, 1]
        ∨ findBestEstimate 1 (maxPopSize 1 (1/2)) [5, 5, 1] = 1) ∧
      (calcError (findBestEstimate 1 (maxPopSize 1 (1/2)) [5, 5, 1] : ℚ)
          1 [5, 5, 1] ≤ 0
        ∨ findBestEstimate 1 (maxPopSize 1 (1/2)) [5, 5, 1] =
            maxPopSize 1 (1/2))) := by
  have hmax : maxPopSize 1 (1/2) = 2 := by
    rw [maxPopSize, Int.ceil_eq_iff] <;> norm_num
  have hce2 : calcError ((2 : ℤ) : ℚ) ((1 : ℤ) : ℚ) [5, 5, 1] = 5/4 := by
    norm_num [calcError, ratioProd]
  have hu : findBestEstimate 1 (maxPopSize 1 (1/2)) [5, 5, 1] = 2 := by
    rw [hmax, findBestEstimate, if_pos (by rw [hce2]; norm_num)]
  rw [hu, hmax]
  intro h
  rcases h.1 with h1 | h1
  · rw [show ((2 : ℤ) : ℚ) - 1 = 1 by norm_num] at h1
    norm_num [calcError, ratioProd] at h1
  · exact absurd h1 (by decide)

theorem c1_bisection_postcondition (n : ℕ) (r : ℚ) (sizes : List ℕ) (u : ℤ)
    (hr0 : 0 < r) (hr1 : r ≤ 1) (hs : ∀ s ∈ sizes, s ≤ n)
    (hu : u = findBestEstimate (n : ℤ) (maxPopSize n r)
      (sizes.map fun s : ℕ => (s : ℚ))) :
    (0 < calcError ((u : ℚ) - 1) (n : ℚ) (sizes.map fun s : ℕ => (s : ℚ))
        ∨ u = (n : ℤ)) ∧
      (calcError (u : ℚ) (n : ℚ) (sizes.map fun s : ℕ => (s : ℚ)) ≤ 0
        ∨ u = maxPopSize n r) := by
  set qs : List ℚ := sizes.map fun s : ℕ => (s : ℚ) with hqs
  have hq : ∀ t ∈ qs, 0 ≤ t ∧ t ≤ (n : ℚ) := by
    intro t ht
    rw [hqs] at ht
    simp only [List.mem_map] at ht
    obtain ⟨m, hm, rfl⟩ := ht
    exact ⟨by positivity, by exact_mod_cast hs m hm⟩
  have hnmax : (n : ℤ) ≤ maxPopSize n r := le_maxPopSize n r hr0 hr1
  rw [findBestEstimate] at hu
  by_cases h1 : 0 < calcError ((maxPopSize n r : ℤ) : ℚ) ((n : ℤ) : ℚ) qs
  · rw [if_pos h1] at hu
    refine ⟨?_, Or.inr hu⟩
    by_cases hmn : maxPopSize n r = (n : ℤ)
    · exact Or.inr (by rw [hu, hmn])
    · left
      have hlt : (n : ℤ) < maxPopSize n r := lt_of_le_of_ne hnmax (Ne.symm hmn)
      have hn1 : 1 ≤ n := by
        by_contra hc
        have h0 : n = 0 := by omega
        rw [h0, maxPopSize_zero] at hlt
        simp [h0] at hlt
      have h2z : (2 : ℤ) ≤ maxPopSize n r := by omega
      have h2q : (2 : ℚ) ≤ ((maxPopSize n r : ℤ) : ℚ) := by exact_mod_cast h2z
      have hypos : 0 < ((maxPopSize n r : ℤ) : ℚ) - 1 := by linarith
      have h3z : (n : ℤ) + 1 ≤ maxPopSize n r := by omega
      have h3q : (n : ℚ) + 1 ≤ ((maxPopSize n r : ℤ) : ℚ) := by
        exact_mod_cast h3z
      have hsy : ∀ t ∈ qs, 0 ≤ t ∧ t ≤ ((maxPopSize n r : ℤ) : ℚ) - 1 := by
        intro t ht
        obtain ⟨h0, hsn⟩ := hq t ht
        exact ⟨h0, by linarith⟩
      have hmono := calcError_anti ((n : ℤ) : ℚ) qs
        (((maxPopSize n r : ℤ) : ℚ) - 1) ((maxPopSize n r : ℤ) : ℚ)
        hypos (by linarith) hsy
      have : 0 < calcError (((maxPopSize n r : ℤ) : ℚ) - 1) ((n : ℤ) : ℚ) qs :=
        lt_of_lt_of_le h1 hmono
      rw [hu]
      push_cast at this ⊢
      exact this
  · rw [if_neg h1] at hu
    have hup : calcError ((maxPopSize n r : ℤ) : ℚ) ((n : ℤ) : ℚ) qs ≤ 0 :=
      le_of_not_lt h1
    by_cases h2 : calcError ((n : ℤ) : ℚ) ((n : ℤ) : ℚ) qs ≤ 0
    · rw [if_pos h2] at hu
      refine ⟨Or.inr hu, Or.inl ?_⟩
      rw [hu]
      push_cast at h2 ⊢
      exact h2
    · rw [if_neg h2] at hu
      have hl : 0 < calcError ((n : ℤ) : ℚ) ((n : ℤ) : ℚ) qs :=
        lt_of_not_le h2
      have hlt : (n : ℤ) < maxPopSize n r := by
        rcases lt_or_eq_of_le hnmax with h | h
        · exact h
        · rw [← h] at hup; exact absurd hup h2
      obtain ⟨ha, hb, hc, hd⟩ := recurseAux_spec ((n : ℤ) : ℚ) qs
        ((maxPopSize n r - (n : ℤ)).toNat) (n : ℤ) (maxPopSize n r)
        le_rfl hlt hl hup
      rw [recurseToBestEstimate] at hu
      constructor
      · left
        rw [hu]
        push_cast at hc ⊢
        exact hc
      · left
        rw [hu]
        push_cast at hd ⊢
        exact hd

theorem c1_witness :
    (0 : ℚ) < 1/2 ∧ (1/2 : ℚ) ≤ 1 ∧ (∀ s ∈ [1], s ≤ 1) ∧
    ((0 < calcError
        ((findBestEstimate (1 : ℤ) (maxPopSize 1 (1/2))
          ([1].map fun s : ℕ => (s : ℚ)) : ℚ) - 1) ((1 : ℕ) : ℚ)
        ([1].map fun s : ℕ => (s : ℚ))
      ∨ findBestEstimate (1 : ℤ) (maxPopSize 1 (1/2))
          ([1].map fun s : ℕ => (s : ℚ)) = ((1 : ℕ) : ℤ)) ∧
    (calcError
        (findBestEstimate (1 : ℤ) (maxPopSize 1 (1/2))
          ([1].map fun s : ℕ => (s : ℚ)) : ℚ) ((1 : ℕ) : ℚ)
        ([1].map fun s : ℕ => (s : ℚ)) ≤ 0
      ∨ findBestEstimate (1 : ℤ) (maxPopSize 1 (1/2))
          ([1].map fun s : ℕ => (s : ℚ)) = maxPopSize 1 (1/2))) :=
  ⟨by norm_num, by norm_num, by decide,
    c1_bisection_postcondition 1 (1/2) [1] _ (by norm_num) (by norm_num)
      (by decide) rfl⟩

theorem c2_counterexample :
    (1 : ℚ) ≤ 2 ∧ (2 : ℚ) < 3 ∧ (∀ s ∈ [(1 : ℚ)], 0 ≤ s ∧ s ≤ 2) ∧
      ¬ calcError 3 1 [1] < calcError 2 1 [1] := by
  refine ⟨by norm_num, by norm_num, by norm_num, ?_⟩
  norm_num [calcError, ratioProd]

theorem c2_error_nonincreasing (numEntities : ℚ) (sampleSizes : List ℚ)
    (y x : ℚ) (hny : numEntities ≤ y) (hy : 0 < y) (hyx : y ≤ x)
    (hs : ∀ s ∈ sampleSizes, 0 ≤ s ∧ s ≤ y) :
    calcError x numEntities sampleSizes ≤ calcError y numEntities sampleSizes :=
  calcError_anti numEntities sampleSizes y x hy hyx hs

theorem c2_witness :
    (1 : ℚ) ≤ 2 ∧ (0 : ℚ) < 2 ∧ (2 : ℚ) ≤ 3 ∧
      (∀ s ∈ [(1 : ℚ), 1], 0 ≤ s ∧ s ≤ 2) ∧
      calcError 3 1 [1, 1] ≤ calcError 2 1 [1, 1] :=
  ⟨by norm_num, by norm_num, by norm_num, by norm_num,
    c2_error_nonincreasing 1 [1, 1] 2 3 (by norm_num) (by norm_num)
      (by norm_num) (by norm_num)⟩

theorem bbcFinal_eq_some {B c tol : ℝ} (h : ∃ k, bbcStops B c tol k) :
    ∃ K, bbcFinal B c tol = some (bbcIter B c (K + 1)) ∧
      bbcStops B c tol K ∧ ∀ j < K, ¬ bbcStops B c tol j := by
  refine ⟨Nat.find h, ?_, Nat.find_spec h, fun j hj => Nat.find_min h hj⟩
  rw [bbcFinal, dif_pos h]

theorem bbcFinal_eq_none {B c tol : ℝ} (h : ¬ ∃ k, bbcStops B c tol k) :
    bbcFinal B c tol = none := by
  rw [bbcFinal, dif_neg h]

theorem bbcFinal_some_shape {B c tol L : ℝ}
    (h : bbcFinal B c tol = some L) : ∃ k, L = bbcIter B c (k + 1) := by
  rw [bbcFinal] at h
  by_cases hex : ∃ k, bbcStops B c tol k
  · rw [dif_pos hex] at h
    exact ⟨Nat.find hex, (Option.some_injective ℝ h).symm⟩
  · rw [dif_neg hex] at h
    exact absurd h (by simp)

theorem bbcIter_pos {B c : ℝ} (hB : 0 < B) : ∀ k, 0 < bbcIter B c k := by
  intro k
  induction k with
  | zero => exact hB
  | succ m ih =>
    have hexp : 0 < Real.exp (-c / bbcIter B c m) := Real.exp_pos _
    have : 0 < bbcIter B c m * Real.exp (-c / bbcIter B c m) := by positivity
    show 0 < bbcStep B c (bbcIter B c m)
    rw [bbcStep]
    linarith

theorem one_mem_freqSupport {α : Type} [DecidableEq α]
    {samples : List (List α)} (h : freqSpectrum samples 1 ≠ 0) :
    1 ∈ freqSupport samples := by
  rw [freqSpectrum, ← Nat.pos_iff_ne_zero, Finset.card_pos] at h
  obtain ⟨a, ha⟩ := h
  rw [Finset.mem_filter] at ha
  rw [freqSupport, Finset.mem_image]
  exact ⟨a, ha.1, ha.2⟩

theorem biasedEst_pos {α : Type} [DecidableEq α]
    {samples : List (List α)} (h : freqSpectrum samples 1 ≠ 0) :
    0 < biasedEst samples := by
  rw [biasedEst]
  apply Finset.sum_pos'
  · intro f _
    have : (0 : ℝ) ≤ (freqSpectrum samples f : ℝ) := Nat.cast_nonneg _
    positivity
  · refine ⟨1, one_mem_freqSupport h, ?_⟩
    have hpos : 0 < (freqSpectrum samples 1 : ℝ) := by
      exact_mod_cast Nat.pos_of_ne_zero h
    positivity

theorem bbcStep_mono {B c x₁ x₂ : ℝ} (hc : 0 ≤ c) (h1 : 0 < x₁)
    (h12 : x₁ ≤ x₂) : bbcStep B c x₁ ≤ bbcStep B c x₂ := by
  have h2 : 0 < x₂ := lt_of_lt_of_le h1 h12
  have hdiv : c / x₂ ≤ c / x₁ := by
    apply div_le_div_of_nonneg_left hc h1 h12
  have hexp : Real.exp (-c / x₁) ≤ Real.exp (-c / x₂) := by
    apply Real.exp_le_exp.mpr
    rw [neg_div, neg_div, neg_le_neg_iff]
    exact hdiv
  rw [bbcStep, bbcStep]
  have := mul_le_mul h12 hexp (Real.exp_nonneg _) h2.le
  linarith

theorem bbcIter_le_succ {B c : ℝ} (hB : 0 < B) (hc : 0 ≤ c) :
    ∀ k, bbcIter B c k ≤ bbcIter B c (k + 1) := by
  intro k
  induction k with
  | zero =>
    show B ≤ bbcStep B c B
    rw [bbcStep]
    have := mul_nonneg hB.le (Real.exp_nonneg (-c / B))
    linarith
  | succ m ih =>
    show bbcStep B c (bbcIter B c m) ≤ bbcStep B c (bbcIter B c (m + 1))
    exact bbcStep_mono hc (bbcIter_pos hB m) ih

theorem bbcIter_le_of_bound {B c y : ℝ} (hB : 0 < B) (hc : 0 ≤ c)
    (hy : 0 < y) (hstep : bbcStep B c y ≤ y) : ∀ k, bbcIter B c k ≤ y := by
  have hBy : B ≤ y := by
    have h0 : 0 ≤ y * Real.exp (-c / y) := mul_nonneg hy.le (Real.exp_nonneg _)
    rw [bbcStep] at hstep
    linarith
  intro k
  induction k with
  | zero => exact hBy
  | succ m ih =>
    calc bbcIter B c (m + 1) = bbcStep B c (bbcIter B c m) := rfl
      _ ≤ bbcStep B c y := bbcStep_mono hc (bbcIter_pos hB m) ih
      _ ≤ y := hstep

theorem bbcDelta_gt {B c : ℝ} (hB : 0 < B) (hc : 0 < c) (k : ℕ) :
    B - c < bbcIter B c (k + 1) - bbcIter B c k := by
  have hxpos : 0 < bbcIter B c k := bbcIter_pos hB k
  set x := bbcIter B c k with hx
  have hne : -c / x ≠ 0 := by
    have h1 : 0 < c / x := div_pos hc hxpos
    rw [neg_div]
    exact ne_of_lt (by linarith)
  have hlt := Real.add_one_lt_exp hne
  have h2 : 1 - Real.exp (-c / x) < c / x := by
    rw [neg_div] at hlt ⊢
    linarith
  have hkey : x * (1 - Real.exp (-c / x)) < c := by
    calc x * (1 - Real.exp (-c / x)) < x * (c / x) :=
        mul_lt_mul_of_pos_left h2 hxpos
      _ = c := by field_simp
  have hstep : bbcIter B c (k + 1) = B + x * Real.exp (-c / x) := rfl
  rw [hstep]
  have hexpand : x * (1 - Real.exp (-c / x)) =
      x - x * Real.exp (-c / x) := by ring
  rw [hexpand] at hkey
  linarith

theorem findBestEstimate_ge {n maxP : ℤ} (sizes : List ℚ) (h : n ≤ maxP) :
    n ≤ findBestEstimate n maxP sizes := by
  rw [findBestEstimate]
  by_cases h1 : 0 < calcError (maxP : ℚ) (n : ℚ) sizes
  · rw [if_pos h1]; exact h
  · rw [if_neg h1]
    by_cases h2 : calcError (n : ℚ) (n : ℚ) sizes ≤ 0
    · rw [if_pos h2]
    · rw [if_neg h2]
      exact (recurseAux_mem (n : ℚ) sizes (maxP - n).toNat n maxP h).1

theorem biasedEst_singleSample : biasedEst singleSample = (Real.exp 1)⁻¹ := by
  have hsup : freqSupport singleSample = {1} := by decide
  have h1 : freqSpectrum singleSample 1 = 1 := by decide
  rw [biasedEst, hsup, Finset.sum_singleton, h1]
  norm_num

theorem biasedEst_fiveDouble :
    biasedEst fiveDoubleSample =
      (Real.exp 1)⁻¹ + 5 * (Real.exp 1 * Real.exp 1)⁻¹ := by
  have hsup : freqSupport fiveDoubleSample = {1, 2} := by decide
  have h1 : freqSpectrum fiveDoubleSample 1 = 1 := by decide
  have h2 : freqSpectrum fiveDoubleSample 2 = 5 := by decide
  have hne : (1 : ℕ) ∉ ({2} : Finset ℕ) := by decide
  rw [biasedEst, hsup, Finset.sum_insert hne, Finset.sum_singleton, h1, h2]
  have hexp2 : Real.exp ((2 : ℕ) : ℝ) = Real.exp 1 * Real.exp 1 := by
    rw [← Real.exp_add]
    norm_num
  rw [hexp2]
  push_cast
  rw [one_div, div_eq_mul_inv, mul_comm (5 : ℝ)]

theorem c3_bbc_formula {α : Type} [DecidableEq α] (samples : List (List α))
    (tol : ℝ) (h1 : freqSpectrum samples 1 ≠ 0)
    (h2 : ∃ k, bbcStops (biasedEst samples)
      ((freqSpectrum samples 1 : ℕ) : ℝ) tol k) :
    ∃ K, bbc samples tol =
        BBCOutcome.ok ((numObserved samples : ℤ) +
          ⌈bbcIter (biasedEst samples) ((freqSpectrum samples 1 : ℕ) : ℝ)
            (K + 1)⌉) ∧
      bbcStops (biasedEst samples) ((freqSpectrum samples 1 : ℕ) : ℝ) tol K ∧
      ∀ j < K, ¬ bbcStops (biasedEst samples)
        ((freqSpectrum samples 1 : ℕ) : ℝ) tol j := by
  obtain ⟨K, hF, hstop, hmin⟩ := bbcFinal_eq_some h2
  refine ⟨K, ?_, hstop, hmin⟩
  rw [bbc, if_neg h1, hF]

theorem c3_witness :
    freqSpectrum singleSample 1 ≠ 0 ∧
    bbcStops (biasedEst singleSample)
      ((freqSpectrum singleSample 1 : ℕ) : ℝ) 1 0 ∧
    (∃ K, bbc singleSample 1 =
        BBCOutcome.ok ((numObserved singleSample : ℤ) +
          ⌈bbcIter (biasedEst singleSample)
            ((freqSpectrum singleSample 1 : ℕ) : ℝ) (K + 1)⌉) ∧
      bbcStops (biasedEst singleSample)
        ((freqSpectrum singleSample 1 : ℕ) : ℝ) 1 K ∧
      ∀ j < K, ¬ bbcStops (biasedEst singleSample)
        ((freqSpectrum singleSample 1 : ℕ) : ℝ) 1 j) := by
  have hB : biasedEst singleSample = (Real.exp 1)⁻¹ := biasedEst_singleSample
  have hBpos : 0 < biasedEst singleSample := by
    rw [hB]
    positivity
  have hstop : bbcStops (biasedEst singleSample)
      ((freqSpectrum singleSample 1 : ℕ) : ℝ) 1 0 := by
    rw [bbcStops]
    have hiter : bbcIter (biasedEst singleSample)
        ((freqSpectrum singleSample 1 : ℕ) : ℝ) (0 + 1) -
        bbcIter (biasedEst singleSample)
          ((freqSpectrum singleSample 1 : ℕ) : ℝ) 0 =
        biasedEst singleSample *
          Real.exp (-((freqSpectrum singleSample 1 : ℕ) : ℝ) /
            biasedEst singleSample) := by
      have h0 : bbcIter (biasedEst singleSample)
          ((freqSpectrum singleSample 1 : ℕ) : ℝ) 0 =
          biasedEst singleSample := rfl
      show bbcStep _ _ _ - _ = _
      rw [bbcStep, h0]
      ring
    rw [hiter]
    have hc : (0 : ℝ) ≤ ((freqSpectrum singleSample 1 : ℕ) : ℝ) :=
      Nat.cast_nonneg _
    have hexple : Real.exp (-((freqSpectrum singleSample 1 : ℕ) : ℝ) /
        biasedEst singleSample) ≤ 1 := by
      apply Real.exp_le_one_iff.mpr
      rw [neg_div]
      have : 0 ≤ ((freqSpectrum singleSample 1 : ℕ) : ℝ) /
          biasedEst singleSample := div_nonneg hc hBpos.le
      linarith
    have hBle1 : biasedEst singleSample ≤ 1 := by
      rw [hB]
      rw [inv_le_one_iff₀]
      right
      exact Real.one_le_exp zero_le_one
    rw [abs_of_nonneg (mul_nonneg hBpos.le (Real.exp_nonneg _))]
    calc biasedEst singleSample * Real.exp _ ≤ 1 * 1 :=
        mul_le_mul hBle1 hexple (Real.exp_nonneg _) zero_le_one
      _ = 1 := one_mul 1
  exact ⟨by decide, hstop,
    c3_bbc_formula singleSample 1 (by decide) ⟨0, hstop⟩⟩

theorem c4_domain_error {α : Type} [DecidableEq α] (samples : List (List α))
    (tol : ℝ) :
    (freqSpectrum samples 1 = 0 →
      bbc samples tol = BBCOutcome.noSingletons) ∧
    (freqSpectrum samples 1 ≠ 0 →
      bbc samples tol ≠ BBCOutcome.noSingletons) ∧
    (freqSpectrum samples 1 = 0 ↔
      ∀ a ∈ observedEntities samples, entityCount samples a ≠ 1) := by
  refine ⟨?_, ?_, ?_⟩
  · intro h
    rw [bbc, if_pos h]
  · intro h
    rw [bbc, if_neg h]
    cases hF : bbcFinal (biasedEst samples)
        ((freqSpectrum samples 1 : ℕ) : ℝ) tol with
    | none => simp
    | some L => simp
  · rw [freqSpectrum, Finset.card_eq_zero, Finset.filter_eq_empty_iff]

theorem c4_witness :
    bbc ([[0, 1], [0, 1]] : List (List ℕ)) (1/1000) =
      BBCOutcome.noSingletons ∧
    bbc singleSample (1/1000) ≠ BBCOutcome.noSingletons :=
  ⟨(c4_domain_error [[0, 1], [0, 1]] (1/1000)).1 (by decide),
    (c4_domain_error singleSample (1/1000)).2.1 (by decide)⟩

theorem c7_lower_bound {α : Type} [DecidableEq α] (samples : List (List α))
    (r : ℚ) (tol : ℝ) (v : ℤ) (hr0 : 0 < r) (hr1 : r ≤ 1) :
    (numObserved samples : ℤ) ≤ cuthbertUncorrected samples r ∧
      (bbc samples tol = BBCOutcome.ok v → (numObserved samples : ℤ) ≤ v) := by
  constructor
  · exact findBestEstimate_ge _ (le_maxPopSize (numObserved samples) r hr0 hr1)
  · intro hok
    rw [bbc] at hok
    by_cases hsing : freqSpectrum samples 1 = 0
    · rw [if_pos hsing] at hok
      exact absurd hok (by simp)
    · rw [if_neg hsing] at hok
      cases hF : bbcFinal (biasedEst samples)
          ((freqSpectrum samples 1 : ℕ) : ℝ) tol with
      | none => rw [hF] at hok; exact absurd hok (by simp)
      | some L =>
        rw [hF] at hok
        have hv : (numObserved samples : ℤ) + ⌈L⌉ = v := by
          have := hok
          simp only [BBCOutcome.ok.injEq] at this
          exact this
        obtain ⟨k, hk⟩ := bbcFinal_some_shape hF
        have hLpos : 0 < L := by
          rw [hk]
          exact bbcIter_pos (biasedEst_pos hsing) (k + 1)
        have hceil : 1 ≤ ⌈L⌉ := Int.ceil_pos.mpr hLpos
        omega

theorem c7_witness :
    (0 : ℚ) < 1 ∧ (1 : ℚ) ≤ 1 ∧
      ((numObserved singleSample : ℤ) ≤ cuthbertUncorrected singleSample 1 ∧
        (bbc singleSample (1 : ℝ) = BBCOutcome.ok 5 →
          (numObserved singleSample : ℤ) ≤ 5)) :=
  ⟨by norm_num, le_rfl,
    c7_lower_bound singleSample 1 1 5 (by norm_num) le_rfl⟩

theorem c8_counterexample :
    freqSpectrum fiveDoubleSample 1 ≠ 0 ∧
    (1 : ℝ)/1000000 ≤ 1/1000 ∧
    ¬ bbcTerminatesWithin (biasedEst fiveDoubleSample)
      ((freqSpectrum fiveDoubleSample 1 : ℕ) : ℝ) (1/1000) 10000 := by
  refine ⟨by decide, by norm_num, ?_⟩
  rintro ⟨k, -, hstop⟩
  rw [bbcStops] at hstop
  have hB : biasedEst fiveDoubleSample =
      (Real.exp 1)⁻¹ + 5 * (Real.exp 1 * Real.exp 1)⁻¹ := biasedEst_fiveDouble
  have hc : ((freqSpectrum fiveDoubleSample 1 : ℕ) : ℝ) = 1 := by
    rw [show freqSpectrum fiveDoubleSample 1 = 1 from by decide]
    norm_num
  have he1 := Real.exp_one_gt_d9
  have he2 := Real.exp_one_lt_d9
  have hepos : (0 : ℝ) < Real.exp 1 := Real.exp_pos 1
  have hBpos : 0 < biasedEst fiveDoubleSample := by
    rw [hB]
    positivity
  have hgap : (1 : ℝ)/1000 < biasedEst fiveDoubleSample -
      ((freqSpectrum fiveDoubleSample 1 : ℕ) : ℝ) := by
    rw [hB, hc]
    have hsq : (0 : ℝ) < Real.exp 1 * Real.exp 1 := by positivity
    have hEub : Real.exp 1 * Real.exp 1 < 7.3890560997 := by nlinarith
    have hElb : (7.3890560980 : ℝ) < Real.exp 1 * Real.exp 1 := by nlinarith
    have heq : (Real.exp 1)⁻¹ + 5 * (Real.exp 1 * Real.exp 1)⁻¹ - 1 =
        (Real.exp 1 + 5 - Real.exp 1 * Real.exp 1) /
          (Real.exp 1 * Real.exp 1) := by
      field_simp
    rw [heq, lt_div_iff hsq]
    nlinarith
  have hdelta := bbcDelta_gt hBpos
    (by rw [hc]; norm_num : (0 : ℝ) <
      ((freqSpectrum fiveDoubleSample 1 : ℕ) : ℝ)) k
  have habs : bbcIter (biasedEst fiveDoubleSample)
      ((freqSpectrum fiveDoubleSample 1 : ℕ) : ℝ) (k + 1) -
      bbcIter (biasedEst fiveDoubleSample)
        ((freqSpectrum fiveDoubleSample 1 : ℕ) : ℝ) k ≤ 1/1000 :=
    le_trans (le_abs_self _) hstop
  linarith

theorem c8_termination_amended {α : Type} [DecidableEq α]
    (samples : List (List α)) (tol y : ℝ)
    (hsing : freqSpectrum samples 1 ≠ 0) (htol : (1 : ℝ)/1000000 ≤ tol)
    (hy : 0 < y)
    (hstep : bbcStep (biasedEst samples) ((freqSpectrum samples 1 : ℕ) : ℝ)
      y ≤ y)
    (hgap : y - biasedEst samples ≤ 10000 * tol) :
    bbcTerminatesWithin (biasedEst samples)
      ((freqSpectrum samples 1 : ℕ) : ℝ) tol 10000 := by
  set B := biasedEst samples with hBdef
  set c := ((freqSpectrum samples 1 : ℕ) : ℝ) with hcdef
  have hB : 0 < B := biasedEst_pos hsing
  have hc : (0 : ℝ) ≤ c := Nat.cast_nonneg _
  have htolpos : (0 : ℝ) < tol := lt_of_lt_of_le (by norm_num) htol
  by_contra hterm
  rw [bbcTerminatesWithin] at hterm
  push_neg at hterm
  have hall : ∀ k < 10000, tol < bbcIter B c (k + 1) - bbcIter B c k := by
    intro k hk
    have hnot := hterm k hk
    rw [bbcStops] at hnot
    have habs : tol < |bbcIter B c (k + 1) - bbcIter B c k| :=
      lt_of_not_le hnot
    have hmono := bbcIter_le_succ hB hc k
    rwa [abs_of_nonneg (by linarith)] at habs
  have key : ∀ m : ℕ, m ≤ 10000 →
      B + m * tol < bbcIter B c m ∨ m = 0 := by
    intro m
    induction m with
    | zero => intro _; exact Or.inr rfl
    | succ j ih =>
      intro hj
      left
      have hdelta := hall j (by omega)
      rcases ih (by omega) with h | h
      · have : ((j : ℝ) + 1) * tol = (j : ℝ) * tol + tol := by ring
        push_cast
        rw [this]
        linarith
      · subst h
        have h0 : bbcIter B c 0 = B := rfl
        push_cast
        rw [h0] at hdelta
        linarith
  rcases key 10000 le_rfl with h | h
  · have hbound := bbcIter_le_of_bound hB hc hy hstep 10000
    have : (10000 : ℝ) * tol < bbcIter B c 10000 - B := by
      push_cast at h
      linarith
    linarith
  · exact absurd h (by norm_num)

theorem c8_witness :
    freqSpectrum singleSample 1 ≠ 0 ∧ (1 : ℝ)/1000000 ≤ 1/1000 ∧
    (0 : ℝ) < 1 ∧
    bbcStep (biasedEst singleSample)
      ((freqSpectrum singleSample 1 : ℕ) : ℝ) 1 ≤ 1 ∧
    1 - biasedEst singleSample ≤ 10000 * (1/1000) ∧
    bbcTerminatesWithin (biasedEst singleSample)
      ((freqSpectrum singleSample 1 : ℕ) : ℝ) (1/1000) 10000 := by
  have hB : biasedEst singleSample = (Real.exp 1)⁻¹ := biasedEst_singleSample
  have hepos : (0 : ℝ) < Real.exp 1 := Real.exp_pos 1
  have he1 := Real.exp_one_gt_d9
  have hstep : bbcStep (biasedEst singleSample)
      ((freqSpectrum singleSample 1 : ℕ) : ℝ) 1 ≤ 1 := by
    rw [bbcStep, hB]
    have hc : ((freqSpectrum singleSample 1 : ℕ) : ℝ) = 1 := by
      rw [show freqSpectrum singleSample 1 = 1 from by decide]
      norm_num
    rw [hc]
    have hexp : Real.exp (-1 / 1) = (Real.exp 1)⁻¹ := by
      rw [show (-1 : ℝ) / 1 = -1 by norm_num, Real.exp_neg]
    rw [hexp]
    have hinv : (Real.exp 1)⁻¹ ≤ 1/2 := by
      rw [inv_le_comm₀ hepos (by norm_num)]
      nlinarith
    linarith
  have hgap : 1 - biasedEst singleSample ≤ 10000 * ((1 : ℝ)/1000) := by
    rw [hB]
    have : (0 : ℝ) ≤ (Real.exp 1)⁻¹ := by positivity
    linarith
  exact ⟨by decide, by norm_num, by norm_num, hstep, hgap,
    c8_termination_amended singleSample (1/1000) 1 (by decide) (by norm_num)
      (by norm_num) hstep hgap⟩

theorem c5_code_bug_eval :
    cuthbert pairSamples (1/100) (some 1) (1/5) (fun _ _ => []) =
      PyResult.err NpError.notOneDimensional := rfl

theorem c6_counterexample :
    (-1 : ℤ) < 0 ∧
    cuthbert singleSample (1/100) (some (-1)) (1/5) (fun _ _ => []) =
      PyResult.ok ⟨cuthbertUncorrected singleSample (1/100), []⟩ :=
  ⟨by norm_num, rfl⟩

theorem c6_no_validation {α : Type} [DecidableEq α]
    (samples : List (List α)) (r p : ℚ) (rng : ℕ → ℕ → List ℕ) (c : ℤ)
    (hc : c < 0) :
    cuthbert samples r (some c) p rng =
      PyResult.ok ⟨cuthbertUncorrected samples r, []⟩ := by
  have h0 : c.toNat = 0 := Int.toNat_of_nonpos hc.le
  rw [cuthbert, h0]
  rfl

theorem c6_witness :
    (-1 : ℤ) < 0 ∧
    cuthbert singleSample (1/2) (some (-1)) (3/10) (fun _ _ => []) =
      PyResult.ok ⟨cuthbertUncorrected singleSample (1/2), []⟩ :=
  ⟨by norm_num,
    c6_no_validation singleSample (1/2) (3/10) (fun _ _ => []) (-1)
      (by norm_num)⟩

theorem cuthbert_ok_uncorrected {α : Type} [DecidableEq α]
    (samples : List (List α)) (r : ℚ) (cv : Option ℤ) (p : ℚ)
    (rng : ℕ → ℕ → List ℕ) (res : CuthbertResult)
    (h : cuthbert samples r cv p rng = PyResult.ok res) :
    res.uncorrected = cuthbertUncorrected samples r := by
  cases cv with
  | none =>
    simp only [cuthbert] at h
    simp only [PyResult.ok.injEq] at h
    rw [← h]
  | some c =>
    simp only [cuthbert] at h
    cases hrt : runTrials
        (simulatedPopulation samples (cuthbertUncorrected samples r))
        samples (numObserved samples) p rng 0 c.toNat with
    | err e => rw [hrt] at h; exact absurd h (by simp)
    | ok corrected =>
      rw [hrt] at h
      simp only [PyResult.ok.injEq] at h
      rw [← h]

theorem c9_uncorrected_independent {α : Type} [DecidableEq α]
    (s₁ s₂ : List (List α)) (r : ℚ) (cv₁ cv₂ : Option ℤ) (p₁ p₂ : ℚ)
    (rng₁ rng₂ : ℕ → ℕ → List ℕ) (res₁ res₂ : CuthbertResult)
    (hent : observedEntities s₁ = observedEntities s₂)
    (hsz : s₁.map (fun s => s.length) = s₂.map (fun s => s.length))
    (h₁ : cuthbert s₁ r cv₁ p₁ rng₁ = PyResult.ok res₁)
    (h₂ : cuthbert s₂ r cv₂ p₂ rng₂ = PyResult.ok res₂) :
    res₁.uncorrected = res₂.uncorrected := by
  rw [cuthbert_ok_uncorrected s₁ r cv₁ p₁ rng₁ res₁ h₁,
    cuthbert_ok_uncorrected s₂ r cv₂ p₂ rng₂ res₂ h₂,
    cuthbertUncorrected, cuthbertUncorrected]
  have hn : numObserved s₁ = numObserved s₂ := by
    rw [numObserved, numObserved, hent]
  have hsq : s₁.map (fun s => ((s.length : ℕ) : ℚ)) =
      s₂.map (fun s => ((s.length : ℕ) : ℚ)) := by
    have e₁ : s₁.map (fun s => ((s.length : ℕ) : ℚ)) =
        (s₁.map (fun s => s.length)).map (fun n : ℕ => (n : ℚ)) := by
      rw [List.map_map]
      rfl
    have e₂ : s₂.map (fun s => ((s.length : ℕ) : ℚ)) =
        (s₂.map (fun s => s.length)).map (fun n : ℕ => (n : ℚ)) := by
      rw [List.map_map]
      rfl
    rw [e₁, e₂, hsz]
  rw [hn, hsq]

theorem c9_witness :
    observedEntities singleSample = observedEntities singleSample ∧
    singleSample.map (fun s => s.length) =
      singleSample.map (fun s => s.length) ∧
    cuthbert singleSample 1 none (1/5) (fun _ _ => []) =
      PyResult.ok ⟨cuthbertUncorrected singleSample 1, []⟩ ∧
    cuthbert singleSample 1 (some 0) (2/5) (fun _ i => [i]) =
      PyResult.ok ⟨cuthbertUncorrected singleSample 1, []⟩ ∧
    (⟨cuthbertUncorrected singleSample 1, []⟩ : CuthbertResult).uncorrected =
      (⟨cuthbertUncorrected singleSample 1, []⟩ : CuthbertResult).uncorrected :=
  ⟨rfl, rfl, rfl, rfl,
    c9_uncorrected_independent singleSample singleSample 1 none (some 0)
      (1/5) (2/5) (fun _ _ => []) (fun _ i => [i]) _ _ rfl rfl rfl rfl⟩

theorem c10_retained_by_value {α : Type} [DecidableEq α]
    (samples validation : List (List α)) (s : List α) (e : α) :
    ((retainedSamples samples validation).count s =
      if s ∈ validation then 0 else samples.count s) ∧
    (e ∈ s → s ∈ validation → (∀ t ∈ samples, e ∈ t → t = s) →
      e ∉ retainedEntities samples validation) ∧
    (e ∈ s → s ∈ validation → s ∈ samples →
      (∀ t ∈ samples, e ∈ t → t = s) →
      1 ≤ trueNewCount samples validation) := by
  have hb : e ∈ s → s ∈ validation → (∀ t ∈ samples, e ∈ t → t = s) →
      e ∉ retainedEntities samples validation := by
    intro he hv hall hmem
    rw [retainedEntities, List.mem_toFinset, List.mem_flatten] at hmem
    obtain ⟨t, ht, het⟩ := hmem
    rw [retainedSamples, List.mem_filter] at ht
    have hts : t = s := hall t ht.1 het
    have : s ∉ validation := by
      have := ht.2
      rw [hts] at this
      simpa using this
    exact this hv
  refine ⟨?_, hb, ?_⟩
  · by_cases hv : s ∈ validation
    · rw [if_pos hv, List.count_eq_zero]
      intro hmem
      rw [retainedSamples, List.mem_filter] at hmem
      have := hmem.2
      simp only [decide_eq_true_eq] at this
      exact this hv
    · rw [if_neg hv]
      apply List.count_filter
      simpa using hv
  · intro he hv hs hall
    have hnot := hb he hv hall
    have hobs : e ∈ observedEntities samples := by
      rw [observedEntities, List.mem_toFinset, List.mem_flatten]
      exact ⟨s, hs, he⟩
    have hsub : retainedEntities samples validation ⊆
        observedEntities samples := by
      intro x hx
      rw [retainedEntities, List.mem_toFinset, List.mem_flatten] at hx
      obtain ⟨t, ht, hxt⟩ := hx
      rw [retainedSamples, List.mem_filter] at ht
      rw [observedEntities, List.mem_toFinset, List.mem_flatten]
      exact ⟨t, ht.1, hxt⟩
    have hlt : (retainedEntities samples validation).card <
        (observedEntities samples).card :=
      Finset.card_lt_card
        ((Finset.ssubset_iff_of_subset hsub).mpr ⟨e, hobs, hnot⟩)
    rw [trueNewCount, numObserved]
    omega

theorem c10_witness :
    (0 : ℕ) ∈ [(0 : ℕ)] ∧ [(0 : ℕ)] ∈ ([[(0 : ℕ)]] : List (List ℕ)) ∧
    [(0 : ℕ)] ∈ ([[(0 : ℕ)], [0]] : List (List ℕ)) ∧
    1 ≤ trueNewCount ([[(0 : ℕ)], [0]] : List (List ℕ)) [[(0 : ℕ)]] :=
  ⟨by decide, by decide, by decide,
    (c10_retained_by_value [[0], [0]] [[0]] [0] 0).2.2 (by decide)
      (by decide) (by decide) (by decide)⟩
